import Mathlib

/-!
# ig_miner — verification of the crawl / storage core

Shallow embedding of the parts of `ig_miner` that the specification's
testable properties talk about:

* `src/ig_miner/constants.py`  — the shortcode alphabet;
* `src/igminer/api.py`         — `shortcode_to_media_pk`, `fetch_hashtag_posts`;
* `src/ig_miner/storage/sqlite_store.py` — the SQLite merge policies and queries;
* `src/ig_miner/storage/json_store.py`   — the JSON batch backend's counters;
* `src/ig_miner/scraper.py`    — `scrape_hashtag`;
* `src/igminer/daemon.py`      — one cycle of `run_daemon`.

Machine integers are modelled by `Nat`/`Int` (no arithmetic here ever nears an
overflow boundary in the source's Python, which has big integers anyway);
Python `None` becomes `Option`; exceptions become `Option`/early returns.
-/

namespace IgMiner

/-! ## Constants (`src/ig_miner/constants.py`) -/

/-- `SHORTCODE_ALPHABET`: the 64-character base-64-style alphabet
`A–Z a–z 0–9 - _`, as a list of characters. -/
def SHORTCODE_ALPHABET : List Char :=
  "ABCDEFGHIJKLMNOPQRSTUVWXYZabcdefghijklmnopqrstuvwxyz0123456789-_".toList

/-! ## Shortcode decoding (`src/igminer/api.py`, `shortcode_to_media_pk`)

Python's `str.index` raises `ValueError` when the character is absent; we
model the raising call by `List.indexOf?` and propagate the failure through
the fold with `Option`, so `none` is "the call raised". -/

/-- `SHORTCODE_ALPHABET.index(char)` — `some i` on success, `none` models the
`ValueError` raised by Python's `str.index` for a character not in the
alphabet. -/
def alphabetIndex (c : Char) : Option Nat :=
  SHORTCODE_ALPHABET.indexOf? c

/-- `shortcode_to_media_pk`: left-to-right accumulation
`pk = pk * 64 + alphabet.index(char)` over the code's characters, starting
from 0.  `none` models the propagated `ValueError`. -/
def shortcode_to_media_pk (code : String) : Option Nat :=
  code.toList.foldlM (fun pk c => (alphabetIndex c).map (fun i => pk * 64 + i)) 0

/-- The list-level accumulator, for reasoning by induction. -/
def pkFold (cs : List Char) (init : Nat) : Option Nat :=
  cs.foldlM (fun pk c => (alphabetIndex c).map (fun i => pk * 64 + i)) init

theorem shortcode_eq_pkFold (code : String) :
    shortcode_to_media_pk code = pkFold code.toList 0 := rfl

theorem pkFold_nil (init : Nat) : pkFold [] init = some init := rfl

theorem pkFold_cons (c : Char) (cs : List Char) (init : Nat) :
    pkFold (c :: cs) init =
      (alphabetIndex c).bind (fun i => pkFold cs (init * 64 + i)) := by
  cases h : alphabetIndex c <;>
    simp [pkFold, List.foldlM, h, Option.bind]

/-! Generic facts about `List.indexOf?`, proved from scratch by induction so
the development does not depend on library lemma names. -/

theorem indexOf?_some_lt {α : Type} [BEq α] {l : List α} {a : α} {i : Nat}
    (h : l.indexOf? a = some i) : i < l.length := by
  induction l generalizing i with
  | nil => simp [List.indexOf?_nil] at h
  | cons x xs ih =>
    rw [List.indexOf?_cons] at h
    by_cases hx : (x == a) = true
    · simp [hx] at h
      subst h
      simp
    · simp [hx] at h
      obtain ⟨j, hj, rfl⟩ := h
      have := ih hj
      simp
      omega

theorem indexOf?_some_get {α : Type} [BEq α] [LawfulBEq α] {l : List α} {a : α}
    {i : Nat} (h : l.indexOf? a = some i) : ∃ hi : i < l.length, l.get ⟨i, hi⟩ = a := by
  induction l generalizing i with
  | nil => simp [List.indexOf?_nil] at h
  | cons x xs ih =>
    rw [List.indexOf?_cons] at h
    by_cases hx : (x == a) = true
    · simp [hx] at h
      subst h
      exact ⟨by simp, by simpa using hx⟩
    · simp [hx] at h
      obtain ⟨j, hj, rfl⟩ := h
      obtain ⟨hlt, hget⟩ := ih hj
      exact ⟨by simpa using Nat.succ_lt_succ hlt, by simpa using hget⟩

theorem indexOf?_isSome_iff_mem {α : Type} [BEq α] [LawfulBEq α] {l : List α}
    {a : α} : (l.indexOf? a).isSome = true ↔ a ∈ l := by
  induction l with
  | nil => simp [List.indexOf?_nil]
  | cons x xs ih =>
    rw [List.indexOf?_cons]
    by_cases hx : (x == a) = true
    · simp [hx]
      exact .inl (eq_of_beq hx).symm
    · simp [hx, ih]
      intro h
      exact absurd (by simp [h]) hx

theorem indexOf?_inj {α : Type} [BEq α] [LawfulBEq α] {l : List α} {a b : α}
    {i : Nat} (ha : l.indexOf? a = some i) (hb : l.indexOf? b = some i) :
    a = b := by
  obtain ⟨hia, hgeta⟩ := indexOf?_some_get ha
  obtain ⟨hib, hgetb⟩ := indexOf?_some_get hb
  rw [← hgeta, ← hgetb]

theorem alphabetIndex_lt {c : Char} {i : Nat} (h : alphabetIndex c = some i) :
    i < 64 := indexOf?_some_lt h

theorem alphabetIndex_isSome_iff {c : Char} :
    (alphabetIndex c).isSome = true ↔ c ∈ SHORTCODE_ALPHABET :=
  indexOf?_isSome_iff_mem

theorem alphabetIndex_inj {a b : Char} {i : Nat} (ha : alphabetIndex a = some i)
    (hb : alphabetIndex b = some i) : a = b := indexOf?_inj ha hb

theorem pkFold_append (xs ys : List Char) (init : Nat) :
    pkFold (xs ++ ys) init = (pkFold xs init).bind (fun v => pkFold ys v) := by
  induction xs generalizing init with
  | nil => simp [pkFold_nil]
  | cons c cs ih =>
    rw [List.cons_append, pkFold_cons, pkFold_cons]
    cases alphabetIndex c with
    | none => rfl
    | some i => simpa using ih (init * 64 + i)

theorem pkFold_concat (xs : List Char) (c : Char) (init : Nat) :
    pkFold (xs ++ [c]) init =
      (pkFold xs init).bind (fun v => (alphabetIndex c).map (fun i => v * 64 + i)) := by
  rw [pkFold_append]
  cases pkFold xs init with
  | none => rfl
  | some v =>
    cases h : alphabetIndex c <;> simp [pkFold_cons, pkFold_nil, h]

theorem pkFold_isSome_iff (cs : List Char) (init : Nat) :
    (pkFold cs init).isSome = true ↔ ∀ c ∈ cs, c ∈ SHORTCODE_ALPHABET := by
  induction cs generalizing init with
  | nil => simp [pkFold_nil]
  | cons c cs ih =>
    rw [pkFold_cons]
    cases h : alphabetIndex c with
    | none =>
      have : ¬ c ∈ SHORTCODE_ALPHABET := by
        rw [← alphabetIndex_isSome_iff, h]
        simp
      simp [this]
    | some i =>
      have hc : c ∈ SHORTCODE_ALPHABET := by
        rw [← alphabetIndex_isSome_iff, h]
        rfl
      simp [hc, ih]

/-- Equal-length strings over the alphabet decode injectively. -/
theorem pkFold_inj (s t : List Char) (hlen : s.length = t.length)
    (v : Nat) (hs : pkFold s 0 = some v) (ht : pkFold t 0 = some v) : s = t := by
  induction s using List.reverseRecOn generalizing t v with
  | nil =>
    have : t = [] := List.eq_nil_of_length_eq_zero (by simpa using hlen.symm)
    rw [this]
  | append_singleton s' a ih =>
    rcases t.eq_nil_or_concat with rfl | ⟨t', b, rfl⟩
    · simp at hlen
    · simp only [List.concat_eq_append] at hlen ht ⊢
      rw [pkFold_concat] at hs ht
      cases hs' : pkFold s' 0 with
      | none => rw [hs'] at hs; simp at hs
      | some vs =>
        cases ht' : pkFold t' 0 with
        | none => rw [ht'] at ht; simp at ht
        | some vt =>
          rw [hs'] at hs; rw [ht'] at ht
          cases ha : alphabetIndex a with
          | none => rw [ha] at hs; simp at hs
          | some ia =>
            cases hb : alphabetIndex b with
            | none => rw [hb] at ht; simp at ht
            | some ib =>
              rw [ha] at hs; rw [hb] at ht
              simp at hs ht
              have hia := alphabetIndex_lt ha
              have hib := alphabetIndex_lt hb
              have hveq : vs * 64 + ia = vt * 64 + ib := by omega
              have hvs : vs = vt := by omega
              have hi : ia = ib := by omega
              subst hvs
              subst hi
              have hab : a = b := alphabetIndex_inj ha hb
              subst hab
              have hlen' : s'.length = t'.length := by
                simpa using hlen
              rw [ih t' hlen' vs hs' ht']

theorem string_eq_of_toList_eq {s t : String} (h : s.toList = t.toList) :
    s = t := by
  cases s
  cases t
  simp only [String.toList] at h
  exact congrArg String.mk h

/-! ## Data model

A `Post` is the record produced by `parse_media` (`src/igminer/api.py`) and
consumed by `upsert_post`; the fields are the ones the SQLite schema stores
(columns of the `posts` table plus the author fields the scraper reads).
The float coordinates are carried as `Int` values: the core never computes
on them, it only copies them.  `parse_media`'s JSON field extraction is pure
plumbing, so media entries are modelled post-parse: a page yields `Post`
records directly, with `code = ""` standing for a missing/empty code (both
are falsy in the Python guard `if not code`). -/

structure Post where
  code : String
  username : String
  full_name : String
  is_verified : Bool
  caption : String
  hashtags : List String
  likes : Nat
  comments_count : Nat
  views : Option Nat
  media_type : Nat
  image_url : String
  local_image_path : Option String
  location_name : Option String
  location_lat : Option Int
  location_lng : Option Int
  posted_at : Option String
  word_count : Nat
  deriving Repr, DecidableEq

/-! ## Feed Client (`src/igminer/api.py`, `fetch_hashtag_posts`)

The network is modelled as a script: the i-th page request receives the
i-th response of the list.  An exhausted script behaves like the loop
ending (no further iterations are examined). -/

/-- One server response to a sections-API page request. -/
inductive PageResp where
  /-- `requests.exceptions.RequestException` raised by `http.post`. -/
  | transportFailure : PageResp
  /-- HTTP 429. -/
  | rateLimited : PageResp
  /-- `r.ok` false and status ≠ 429. -/
  | httpFailure : PageResp
  /-- A successful JSON page: its media entries (already parsed), the
  `more_available` flag and the `next_max_id` cursor. -/
  | page : List Post → Bool → Option String → PageResp
  deriving Repr, DecidableEq

/-- Result of a `fetch_hashtag_posts` run: the returned posts, the cursor
(`max_id`) sent with each issued request in order, and how many page /
rate-limited responses were processed. -/
structure FetchResult where
  posts : List Post
  requests : List (Option String)
  pagesFetched : Nat
  rlHits : Nat
  deriving Repr, DecidableEq

/-- The inner per-page loop: `for m in medias: code = …; if not code or code
in seen_codes: continue; seen_codes.add(code); page_posts.append(…)`,
with `page_posts` finally extended onto `all_posts`. -/
def pageDedup (seen : List String) (acc : List Post) :
    List Post → List String × List Post
  | [] => (seen, acc)
  | m :: rest =>
    if m.code = "" ∨ m.code ∈ seen then pageDedup seen acc rest
    else pageDedup (m.code :: seen) (acc ++ [m]) rest

/-- The pagination loop of `fetch_hashtag_posts`.  `fuel` is the number of
`range(max_pages)` iterations left; note that the `continue` taken on a 429
moves to the next iteration of `for page in range(max_pages)`, so it burns
an iteration exactly like a successful page does, while `next_cursor` is
left unchanged. -/
def fetchGo (feed : List PageResp) (fuel : Nat) (cursor : Option String)
    (seen : List String) (acc : List Post) (reqs : List (Option String))
    (pf rl : Nat) : FetchResult :=
  match fuel, feed with
  | 0, _ => ⟨acc, reqs, pf, rl⟩
  | _ + 1, [] => ⟨acc, reqs, pf, rl⟩
  | fuel' + 1, resp :: feedRest =>
    match resp with
    | .transportFailure => ⟨acc, reqs ++ [cursor], pf, rl⟩
    | .rateLimited =>
      fetchGo feedRest fuel' cursor seen acc (reqs ++ [cursor]) pf (rl + 1)
    | .httpFailure => ⟨acc, reqs ++ [cursor], pf, rl⟩
    | .page medias more nextMaxId =>
      let st := pageDedup seen acc medias
      if more then
        fetchGo feedRest fuel' nextMaxId st.1 st.2 (reqs ++ [cursor])
          (pf + 1) rl
      else ⟨st.2, reqs ++ [cursor], pf + 1, rl⟩

/-- `fetch_hashtag_posts(hashtag, cookies, max_pages, tab)` run against a
scripted feed. -/
def fetch_hashtag_posts (feed : List PageResp) (max_pages : Nat) :
    FetchResult :=
  fetchGo feed max_pages none [] [] [] 0 0

/-- Modelled from the spec: the variant of the pagination loop in which, per
the spec's words, a 429 "retries the same page without consuming a
page-count slot" — the retry does not decrement the remaining-pages budget.
Used only to compare against `fetch_hashtag_posts` (claim C3). -/
def fetchSpecGo (feed : List PageResp) (pagesLeft : Nat)
    (cursor : Option String) (seen : List String) (acc : List Post)
    (reqs : List (Option String)) (pf rl : Nat) : FetchResult :=
  match feed with
  | [] => ⟨acc, reqs, pf, rl⟩
  | resp :: feedRest =>
    match pagesLeft with
    | 0 => ⟨acc, reqs, pf, rl⟩
    | left' + 1 =>
      match resp with
      | .transportFailure => ⟨acc, reqs ++ [cursor], pf, rl⟩
      | .rateLimited =>
        fetchSpecGo feedRest (left' + 1) cursor seen acc (reqs ++ [cursor])
          pf (rl + 1)
      | .httpFailure => ⟨acc, reqs ++ [cursor], pf, rl⟩
      | .page medias more nextMaxId =>
        let st := pageDedup seen acc medias
        if more then
          fetchSpecGo feedRest left' nextMaxId st.1 st.2 (reqs ++ [cursor])
            (pf + 1) rl
        else ⟨st.2, reqs ++ [cursor], pf + 1, rl⟩

/-- Modelled from the spec (claim C3 comparison only). -/
def fetch_hashtag_posts_specModel (feed : List PageResp) (max_pages : Nat) :
    FetchResult :=
  fetchSpecGo feed max_pages none [] [] [] 0 0

/-- The posts a list of prior page responses contributes, with the
run-level dedup threaded through (non-page responses contribute nothing). -/
def pageStep (st : List String × List Post) : PageResp → List String × List Post
  | .page medias _ _ => pageDedup st.1 st.2 medias
  | _ => st

def pagesPosts (pre : List PageResp) : List Post :=
  (pre.foldl pageStep ([], [])).2

/-- A response that is a successful page with `more_available = true`. -/
def isPageMore (r : PageResp) : Prop :=
  ∃ medias nextMaxId, r = PageResp.page medias true nextMaxId

theorem fetchGo_requests_le (feed : List PageResp) :
    ∀ (fuel : Nat) (cursor : Option String) (seen : List String)
      (acc : List Post) (reqs : List (Option String)) (pf rl : Nat),
      (fetchGo feed fuel cursor seen acc reqs pf rl).requests.length ≤
        reqs.length + fuel := by
  induction feed with
  | nil =>
    intro fuel cursor seen acc reqs pf rl
    cases fuel <;> simp [fetchGo]
  | cons r rest ih =>
    intro fuel cursor seen acc reqs pf rl
    cases fuel with
    | zero => simp [fetchGo]
    | succ fuel' =>
      cases r with
      | transportFailure => simp [fetchGo]
      | rateLimited =>
        have h := ih fuel' cursor seen acc (reqs ++ [cursor]) pf (rl + 1)
        simp [fetchGo]
        simp at h
        omega
      | httpFailure => simp [fetchGo]
      | page medias more nextMaxId =>
        cases more with
        | false => simp [fetchGo]
        | true =>
          have h := ih fuel' nextMaxId (pageDedup seen acc medias).1
            (pageDedup seen acc medias).2 (reqs ++ [cursor]) (pf + 1) rl
          simp [fetchGo]
          simp at h
          omega

theorem fetchGo_slots (feed : List PageResp) :
    ∀ (fuel : Nat) (cursor : Option String) (seen : List String)
      (acc : List Post) (reqs : List (Option String)) (pf rl : Nat),
      (fetchGo feed fuel cursor seen acc reqs pf rl).pagesFetched +
        (fetchGo feed fuel cursor seen acc reqs pf rl).rlHits ≤
          pf + rl + fuel := by
  induction feed with
  | nil =>
    intro fuel cursor seen acc reqs pf rl
    cases fuel <;> simp [fetchGo]
  | cons r rest ih =>
    intro fuel cursor seen acc reqs pf rl
    cases fuel with
    | zero => simp [fetchGo]
    | succ fuel' =>
      cases r with
      | transportFailure => simp [fetchGo]
      | rateLimited =>
        have h := ih fuel' cursor seen acc (reqs ++ [cursor]) pf (rl + 1)
        simp [fetchGo]
        omega
      | httpFailure => simp [fetchGo]
      | page medias more nextMaxId =>
        cases more with
        | false =>
          simp [fetchGo]
          omega
        | true =>
          have h := ih fuel' nextMaxId (pageDedup seen acc medias).1
            (pageDedup seen acc medias).2 (reqs ++ [cursor]) (pf + 1) rl
          simp [fetchGo]
          omega

theorem fetchGo_stops_at_failure (pre : List PageResp) :
    ∀ (rest : List PageResp) (bad : PageResp) (fuel : Nat)
      (cursor : Option String) (seen : List String) (acc : List Post)
      (reqs : List (Option String)) (pf rl : Nat),
      (∀ r ∈ pre, isPageMore r) →
      (bad = .transportFailure ∨ bad = .httpFailure) →
      pre.length < fuel →
      (fetchGo (pre ++ bad :: rest) fuel cursor seen acc reqs pf rl).posts =
        (pre.foldl pageStep (seen, acc)).2 := by
  induction pre with
  | nil =>
    intro rest bad fuel cursor seen acc reqs pf rl _ hbad hlen
    cases fuel with
    | zero => omega
    | succ fuel' => rcases hbad with rfl | rfl <;> simp [fetchGo]
  | cons r pre' ih =>
    intro rest bad fuel cursor seen acc reqs pf rl hpre hbad hlen
    obtain ⟨medias, nextMaxId, rfl⟩ := hpre r (by simp)
    cases fuel with
    | zero => omega
    | succ fuel' =>
      have hstep :
          fetchGo (PageResp.page medias true nextMaxId :: (pre' ++ bad :: rest))
              (fuel' + 1) cursor seen acc reqs pf rl =
            fetchGo (pre' ++ bad :: rest) fuel' nextMaxId
              (pageDedup seen acc medias).1 (pageDedup seen acc medias).2
              (reqs ++ [cursor]) (pf + 1) rl := by
        simp [fetchGo]
      rw [List.cons_append, hstep,
        ih rest bad fuel' nextMaxId (pageDedup seen acc medias).1
          (pageDedup seen acc medias).2 (reqs ++ [cursor]) (pf + 1) rl
          (fun r hr => hpre r (by simp [hr])) hbad (by simp at hlen; omega)]
      rfl

theorem fetchGo_stops_at_noMore (pre : List PageResp) :
    ∀ (medias : List Post) (nextMaxId : Option String)
      (rest : List PageResp) (fuel : Nat) (cursor : Option String)
      (seen : List String) (acc : List Post) (reqs : List (Option String))
      (pf rl : Nat),
      (∀ r ∈ pre, isPageMore r) →
      pre.length < fuel →
      (fetchGo (pre ++ .page medias false nextMaxId :: rest) fuel cursor
        seen acc reqs pf rl).requests.length = reqs.length + pre.length + 1 := by
  induction pre with
  | nil =>
    intro medias nextMaxId rest fuel cursor seen acc reqs pf rl _ hlen
    cases fuel with
    | zero => omega
    | succ fuel' => simp [fetchGo]
  | cons r pre' ih =>
    intro medias nextMaxId rest fuel cursor seen acc reqs pf rl hpre hlen
    obtain ⟨ms, nxt, rfl⟩ := hpre r (by simp)
    cases fuel with
    | zero => omega
    | succ fuel' =>
      have hstep :
          fetchGo (PageResp.page ms true nxt ::
              (pre' ++ PageResp.page medias false nextMaxId :: rest))
              (fuel' + 1) cursor seen acc reqs pf rl =
            fetchGo (pre' ++ PageResp.page medias false nextMaxId :: rest)
              fuel' nxt (pageDedup seen acc ms).1 (pageDedup seen acc ms).2
              (reqs ++ [cursor]) (pf + 1) rl := by
        simp [fetchGo]
      rw [List.cons_append, hstep,
        ih medias nextMaxId rest fuel' nxt (pageDedup seen acc ms).1
          (pageDedup seen acc ms).2 (reqs ++ [cursor]) (pf + 1) rl
          (fun r hr => hpre r (by simp [hr])) (by simp at hlen; omega)]
      simp
      omega

/-- A concrete post, used to instantiate witnesses. -/
def samplePost : Post :=
  { code := "CxR2a4Nv3", username := "alice", full_name := "Alice A",
    is_verified := false, caption := "hi #x", hashtags := ["#x"], likes := 5,
    comments_count := 2, views := none, media_type := 1,
    image_url := "http://img/1.jpg", local_image_path := none,
    location_name := none, location_lat := none, location_lng := none,
    posted_at := none, word_count := 2 }

/-- A second concrete post with a different code. -/
def samplePost2 : Post :=
  { samplePost with code := "DtQ9zz", username := "bob", likes := 1 }

/-! ## SQLite storage (`src/ig_miner/storage/sqlite_store.py`)

Tables are association lists keyed by the primary-key column; SQL `NULL` is
`Option.none`.  The `scraped_at` default column is wall-clock time and is
never read by the core, so it is omitted. -/

/-- A row of the `posts` table (the columns `upsert_post` writes). -/
structure PostRow where
  code : String
  username : String
  caption : String
  hashtags : List String
  image_url : String
  local_image_path : Option String
  media_type : Nat
  likes : Nat
  comments_count : Nat
  views : Option Nat
  location_name : Option String
  location_lat : Option Int
  location_lng : Option Int
  posted_at : Option String
  word_count : Nat
  deriving Repr, DecidableEq

/-- The VALUES tuple of the `INSERT INTO posts` — the post's fields, author
columns dropped. -/
def rowOfPost (p : Post) : PostRow :=
  { code := p.code, username := p.username, caption := p.caption,
    hashtags := p.hashtags, image_url := p.image_url,
    local_image_path := p.local_image_path, media_type := p.media_type,
    likes := p.likes, comments_count := p.comments_count, views := p.views,
    location_name := p.location_name, location_lat := p.location_lat,
    location_lng := p.location_lng, posted_at := p.posted_at,
    word_count := p.word_count }

/-- `ON CONFLICT(code) DO UPDATE SET likes=excluded.likes,
comments_count=excluded.comments_count, views=excluded.views`. -/
def mergePost (old : PostRow) (new : Post) : PostRow :=
  { old with
    likes := new.likes
    comments_count := new.comments_count
    views := new.views }

/-- `SQLiteStorage.upsert_post`. -/
def upsert_post (p : Post) (tbl : List PostRow) : List PostRow :=
  if tbl.any (fun r => r.code == p.code) then
    tbl.map (fun r => if r.code == p.code then mergePost r p else r)
  else tbl ++ [rowOfPost p]

/-- A row of the `users` table. -/
structure UserRow where
  username : String
  full_name : Option String
  bio : Option String
  followers : Option Nat
  following : Option Nat
  post_count : Option Nat
  is_verified : Bool
  is_private : Bool
  profile_pic_url : Option String
  deriving Repr, DecidableEq

/-- The parameter tuple `upsert_user` binds:
`(user.get("username"), user.get("full_name", ""), user.get("bio"),
user.get("followers"), user.get("following"), user.get("post_count"),
user.get("is_verified", False), user.get("is_private", False),
user.get("profile_pic_url"))`. -/
structure UserInput where
  username : String
  full_name : Option String
  bio : Option String
  followers : Option Nat
  following : Option Nat
  post_count : Option Nat
  is_verified : Bool
  is_private : Bool
  profile_pic_url : Option String
  deriving Repr, DecidableEq

/-- A fresh insert stores the bound parameters as given. -/
def rowOfUser (u : UserInput) : UserRow :=
  { username := u.username, full_name := u.full_name, bio := u.bio,
    followers := u.followers, following := u.following,
    post_count := u.post_count, is_verified := u.is_verified,
    is_private := u.is_private, profile_pic_url := u.profile_pic_url }

/-- `ON CONFLICT(username) DO UPDATE SET
full_name=COALESCE(excluded.full_name, users.full_name), …,
is_verified=excluded.is_verified, profile_pic_url=COALESCE(…)`.
`COALESCE(x, y)` is `x.orElse y` on `Option`; note the UPDATE clause does
not list `is_private`, which therefore keeps its stored value. -/
def mergeUser (old : UserRow) (new : UserInput) : UserRow :=
  { username := old.username,
    full_name := new.full_name.orElse (fun _ => old.full_name),
    bio := new.bio.orElse (fun _ => old.bio),
    followers := new.followers.orElse (fun _ => old.followers),
    following := new.following.orElse (fun _ => old.following),
    post_count := new.post_count.orElse (fun _ => old.post_count),
    is_verified := new.is_verified,
    is_private := old.is_private,
    profile_pic_url := new.profile_pic_url.orElse (fun _ => old.profile_pic_url) }

/-- `SQLiteStorage.upsert_user`. -/
def upsert_user (u : UserInput) (tbl : List UserRow) : List UserRow :=
  if tbl.any (fun r => r.username == u.username) then
    tbl.map (fun r => if r.username == u.username then mergeUser r u else r)
  else tbl ++ [rowOfUser u]

/-- The minimal author record the scraper upserts
(`{"username": …, "full_name": post.get("full_name",""), "is_verified": …}`,
`src/ig_miner/scraper.py` lines 87–91); every other `user.get(...)` then
yields `None` (and the flags their `False` defaults). -/
def minimalUserInput (username full_name : String) (is_verified : Bool) :
    UserInput :=
  { username := username, full_name := some full_name, bio := none,
    followers := none, following := none, post_count := none,
    is_verified := is_verified, is_private := false,
    profile_pic_url := none }

/-- `SQLiteStorage.get_existing_codes` (`SELECT code FROM posts`). -/
def get_existing_codes (tbl : List PostRow) : List String :=
  tbl.map PostRow.code

/-- `SQLiteStorage.get_post_count` (`SELECT COUNT(*) FROM posts`). -/
def get_post_count (tbl : List PostRow) : Nat :=
  tbl.length

/-- `SQLiteStorage.get_enriched_users`
(`SELECT username FROM users WHERE followers IS NOT NULL`). -/
def get_enriched_users (tbl : List UserRow) : List String :=
  (tbl.filter (fun r => r.followers ≠ none)).map UserRow.username

/-! ## JSON storage (`src/ig_miner/storage/json_store.py`)

Only the post-side state matters for the claims: `_existing_codes` (a set,
seeded from previous runs' files and extended on every upsert) and `_posts`
(the in-memory buffer, flushed to a file and cleared once it reaches 100
records).  Flushed file contents are never re-read within a run. -/

structure JSONState where
  existingCodes : List String
  buffered : List Post
  deriving Repr, DecidableEq

def JSONState.empty : JSONState := ⟨[], []⟩

/-- `JSONStorage.upsert_post`: append to `_posts`, add the code to
`_existing_codes`, flush (clear the buffer) at 100. -/
def json_upsert_post (p : Post) (s : JSONState) : JSONState :=
  let codes :=
    if p.code ∈ s.existingCodes then s.existingCodes
    else s.existingCodes ++ [p.code]
  let buf := s.buffered ++ [p]
  if 100 ≤ buf.length then ⟨codes, []⟩ else ⟨codes, buf⟩

/-- `JSONStorage.get_post_count`:
`len(self._existing_codes) + len(self._posts)`. -/
def json_get_post_count (s : JSONState) : Nat :=
  s.existingCodes.length + s.buffered.length

end IgMiner

open IgMiner

/-- C6: a transport failure or a non-success non-429 status mid-pagination
makes `fetch_hashtag_posts` stop early and return exactly the posts
accumulated from the pages fetched before the failure (the function is
total: no error escapes, and prior successful pages are not discarded). -/
theorem C6_partial_failure_resilience (pre rest : List PageResp)
    (bad : PageResp) (max_pages : Nat)
    (hpre : ∀ r ∈ pre, isPageMore r)
    (hbad : bad = .transportFailure ∨ bad = .httpFailure)
    (hlen : pre.length < max_pages) :
    (fetch_hashtag_posts (pre ++ bad :: rest) max_pages).posts =
      pagesPosts pre :=
  fetchGo_stops_at_failure pre rest bad max_pages none [] [] [] 0 0
    hpre hbad hlen

/-- C6 witness: one successful page carrying `samplePost`, then a transport
failure, with `max_pages = 20`: the call returns that one post. -/
theorem C6_partial_failure_resilience_witness :
    (fetch_hashtag_posts
        [.page [samplePost] true none, .transportFailure] 20).posts =
      pagesPosts [.page [samplePost] true none] ∧
    pagesPosts [.page [samplePost] true none] = [samplePost] := by
  constructor
  · exact C6_partial_failure_resilience
      [.page [samplePost] true none] [] .transportFailure 20
      (by intro r hr; simp at hr; subst hr; exact ⟨_, _, rfl⟩)
      (Or.inl rfl) (by simp)
  · rfl

/-- C8: pagination stops at `more_available = false` or at `max_pages`,
whichever comes first: (1) no run ever issues more than `max_pages` page
requests; (2) if the feed reports `more_available = false` on page
`pre.length + 1` (after `pre` pages that all report more), exactly
`pre.length + 1` page requests are performed. -/
theorem C8_pagination_termination :
    (∀ (feed : List PageResp) (max_pages : Nat),
      (fetch_hashtag_posts feed max_pages).requests.length ≤ max_pages) ∧
    (∀ (pre : List PageResp) (medias : List Post)
       (nextMaxId : Option String) (rest : List PageResp) (max_pages : Nat),
      (∀ r ∈ pre, isPageMore r) →
      pre.length + 1 ≤ max_pages →
      (fetch_hashtag_posts (pre ++ .page medias false nextMaxId :: rest)
          max_pages).requests.length = pre.length + 1) := by
  constructor
  · intro feed max_pages
    simpa using fetchGo_requests_le feed max_pages none [] [] [] 0 0
  · intro pre medias nextMaxId rest max_pages hpre hlen
    simpa using
      fetchGo_stops_at_noMore pre medias nextMaxId rest max_pages none
        [] [] [] 0 0 hpre (by omega)

/-- C8 witness: page 1 reports more, page 2 reports `more_available =
false`; with `max_pages = 20` exactly 2 page requests happen, even though
further responses are scripted. -/
theorem C8_pagination_termination_witness :
    (fetch_hashtag_posts
        [.page [samplePost] true (some "cur1"),
         .page [samplePost2] false none,
         .page [] true none] 20).requests.length = 1 + 1 :=
  C8_pagination_termination.2 [.page [samplePost] true (some "cur1")]
    [samplePost2] none [.page [] true none] 20
    (by intro r hr; simp at hr; subst hr; exact ⟨_, _, rfl⟩)
    (by simp)

/-- C3 counterexample: with `max_pages = 1` and a feed whose first response
is HTTP 429 and whose second is a full page, the run returns no posts and
issues exactly one request: the 429 `continue` burns the only
`range(max_pages)` iteration, while the spec-modelled loop (429 does not
consume a slot) fetches the page.  So a run hitting `k` rate limits cannot
always still fetch `max_pages` successful pages. -/
theorem C3_counterexample :
    (fetch_hashtag_posts
        [.rateLimited, .page [samplePost] false none] 1).posts = [] ∧
    (fetch_hashtag_posts
        [.rateLimited, .page [samplePost] false none] 1).requests.length = 1 ∧
    (fetch_hashtag_posts_specModel
        [.rateLimited, .page [samplePost] false none] 1).posts =
      [samplePost] ∧
    fetch_hashtag_posts [.rateLimited, .page [samplePost] false none] 1 ≠
      fetch_hashtag_posts_specModel
        [.rateLimited, .page [samplePost] false none] 1 := by
  refine ⟨rfl, rfl, rfl, by decide⟩

/-- C3 (amended): on HTTP 429 the call sleeps and retries with the *same*
cursor (the request after a 429 carries the unchanged `max_id`), but the
retry consumes a page-count iteration: the number of successfully fetched
pages plus the number of 429 responses never exceeds `max_pages`, so `k`
rate-limit responses leave at most `max_pages − k` successful pages. -/
theorem C3_rate_limit_retry :
    (∀ (feedRest : List PageResp) (fuel : Nat) (cursor : Option String)
       (seen : List String) (acc : List Post)
       (reqs : List (Option String)) (pf rl : Nat),
      fetchGo (.rateLimited :: feedRest) (fuel + 1) cursor seen acc reqs
          pf rl =
        fetchGo feedRest fuel cursor seen acc (reqs ++ [cursor]) pf
          (rl + 1)) ∧
    (∀ (feed : List PageResp) (max_pages : Nat),
      (fetch_hashtag_posts feed max_pages).pagesFetched +
        (fetch_hashtag_posts feed max_pages).rlHits ≤ max_pages) := by
  constructor
  · intro feedRest fuel cursor seen acc reqs pf rl
    rfl
  · intro feed max_pages
    simpa using fetchGo_slots feed max_pages none [] [] [] 0 0


open IgMiner

/-- C4 counterexample: the codes `"A"` and `"AA"` are both drawn from the
64-character alphabet and are distinct, yet both decode to the same value
(`0`), so the conversion is *not* injective over all strings drawn from the
alphabet (a leading index-0 character is absorbed). -/
theorem C4_counterexample :
    (∀ c ∈ ("A" : String).toList, c ∈ SHORTCODE_ALPHABET) ∧
    (∀ c ∈ ("AA" : String).toList, c ∈ SHORTCODE_ALPHABET) ∧
    shortcode_to_media_pk "A" = shortcode_to_media_pk "AA" ∧
    ("A" : String) ≠ "AA" := by
  refine ⟨by decide, by decide, by decide, by decide⟩

/-- C4 (amended): `shortcode_to_media_pk` is exactly the left-to-right
accumulation `value = value*64 + alphabet.index(char)` (stated by the fold
characterization and the one-step recurrence), a single-character code maps
to its alphabet index, and the conversion is deterministic (it is a function)
and injective over *equal-length* strings drawn from the alphabet — but not
over all alphabet strings, by `C4_counterexample`. -/
theorem C4_shortcode_decoding :
    (∀ code : String, shortcode_to_media_pk code = pkFold code.toList 0) ∧
    (∀ (cs : List Char) (c : Char) (init : Nat),
      pkFold (cs ++ [c]) init =
        (pkFold cs init).bind
          (fun v => (alphabetIndex c).map (fun i => v * 64 + i))) ∧
    (∀ c : Char, shortcode_to_media_pk c.toString = alphabetIndex c) ∧
    (∀ (s t : String) (v : Nat), s.toList.length = t.toList.length →
      shortcode_to_media_pk s = some v → shortcode_to_media_pk t = some v →
      s = t) := by
  refine ⟨fun _ => rfl, pkFold_concat, ?_, ?_⟩
  · intro c
    show pkFold [c] 0 = alphabetIndex c
    rw [pkFold_cons]
    cases alphabetIndex c <;> simp [pkFold_nil]
  · intro s t v hlen hs ht
    exact string_eq_of_toList_eq
      (pkFold_inj s.toList t.toList hlen v hs ht)

/-- C4 witness: the amended theorem applied at concrete codes — the
recurrence at `"B" ++ "C"`, the single-character code `"B"` mapping to index
1, and injectivity instantiated at equal-length inputs. -/
theorem C4_shortcode_decoding_witness :
    shortcode_to_media_pk "B" = alphabetIndex 'B' ∧ ("B" : String) = "B" :=
  ⟨C4_shortcode_decoding.2.2.1 'B',
   C4_shortcode_decoding.2.2.2 "B" "B" 1 rfl (by decide) (by decide)⟩

/-- C10: `shortcode_to_media_pk` succeeds exactly on codes all of whose
characters belong to the 64-character alphabet; an input with a character
outside the alphabet makes `alphabet.index` fail (the modelled
`ValueError`), and under the all-characters-valid precondition a numeric
value is always returned. -/
theorem C10_shortcode_totality :
    ∀ code : String,
      ((shortcode_to_media_pk code).isSome = true ↔
        ∀ c ∈ code.toList, c ∈ SHORTCODE_ALPHABET) ∧
      (shortcode_to_media_pk code = none ↔
        ∃ c ∈ code.toList, c ∉ SHORTCODE_ALPHABET) := by
  intro code
  have h := pkFold_isSome_iff code.toList 0
  rw [← shortcode_eq_pkFold] at h
  refine ⟨h, ?_⟩
  rw [← Option.not_isSome_iff_eq_none, h]
  push_neg
  rfl

namespace IgMiner

/-! Helper lemmas about the SQLite upserts. -/

theorem upsert_user_conflict (u : UserInput) (old : UserRow)
    (h : u.username = old.username) :
    upsert_user u [old] = [mergeUser old u] := by
  simp [upsert_user, h]

theorem upsert_post_conflict (p : Post) (old : PostRow)
    (h : p.code = old.code) :
    upsert_post p [old] = [mergePost old p] := by
  simp [upsert_post, h]

theorem upsert_post_fresh (p : Post) (tbl : List PostRow)
    (h : p.code ∉ tbl.map PostRow.code) :
    upsert_post p tbl = tbl ++ [rowOfPost p] := by
  have hany : tbl.any (fun r => r.code == p.code) = false := by
    rw [List.any_eq_false]
    intro r hr
    simp only [beq_iff_eq]
    intro e
    exact h (e ▸ List.mem_map_of_mem PostRow.code hr)
  simp [upsert_post, hany]

/-- Upserting pairwise-distinct fresh posts grows the table by one row
each. -/
theorem sqlite_count_distinct :
    ∀ (ps : List Post) (tbl : List PostRow),
      (∀ p ∈ ps, p.code ∉ tbl.map PostRow.code) →
      ps.Pairwise (fun a b => a.code ≠ b.code) →
      (ps.foldl (fun t p => upsert_post p t) tbl).length =
        tbl.length + ps.length := by
  intro ps
  induction ps with
  | nil =>
    intro tbl _ _
    simp
  | cons p rest ih =>
    intro tbl hfresh hpw
    rw [List.foldl_cons, upsert_post_fresh p tbl (hfresh p (by simp))]
    have hpw' := List.pairwise_cons.mp hpw
    have hfresh' :
        ∀ q ∈ rest, q.code ∉ (tbl ++ [rowOfPost p]).map PostRow.code := by
      intro q hq
      have h1 := hfresh q (List.mem_cons_of_mem _ hq)
      have h2 : p.code ≠ q.code := hpw'.1 q hq
      simp only [List.map_append, List.map_cons, List.map_nil,
        List.mem_append, List.mem_singleton]
      rintro (hc | hc)
      · exact h1 hc
      · exact h2 (by simpa [rowOfPost] using hc.symm)
    have := ih (tbl ++ [rowOfPost p]) hfresh' hpw'.2
    simp only [List.length_append, List.length_cons, List.length_nil] at this ⊢
    omega

/-- The enriched profile record used in concrete instantiations. -/
def enrichedAliceInput : UserInput :=
  { username := "alice", full_name := some "Alice A",
    bio := some "travel blog", followers := some 1200,
    following := some 310, post_count := some 87, is_verified := true,
    is_private := false, profile_pic_url := some "http://pic/a.jpg" }

/-- A later fetch of `samplePost`'s code with updated engagement. -/
def samplePostUpdated : Post :=
  { samplePost with likes := 999, comments_count := 7, views := some 1234 }

end IgMiner

/-- C2 counterexample: after storing the enriched profile of `"alice"`
(`full_name = 'Alice A'`), the minimal author upsert the scraper issues when
the feed's `full_name` is the empty string carries `full_name = ""` — which
is non-null, so `COALESCE(excluded.full_name, users.full_name)` takes it and
the stored non-empty display name is replaced by the empty string, contrary
to the claimed non-null *and non-empty* merge policy. -/
theorem C2_counterexample :
    (upsert_user enrichedAliceInput []).map UserRow.full_name =
      [some "Alice A"] ∧
    (upsert_user (minimalUserInput "alice" "" false)
        (upsert_user enrichedAliceInput [])).map UserRow.full_name =
      [some ""] ∧
    (minimalUserInput "alice" "" false).full_name = some "" ∧
    (some "" : Option String) ≠ some "Alice A" := by
  refine ⟨rfl, rfl, rfl, by decide⟩

/-- C2 (amended): `upsert_user` overwrites each profile field exactly when
the incoming value is non-null (`COALESCE` — an incoming *empty string* does
overwrite), the verification flag is always overwritten (and the privacy
flag never, on conflict); a minimal author upsert carries null
bio/followers/following, so it never nulls those previously known fields —
though it can replace a non-empty `full_name` by `""`. -/
theorem C2_user_merge_policy (old : UserRow) (new : UserInput)
    (hname : new.username = old.username) :
    upsert_user new [old] = [mergeUser old new] ∧
    (mergeUser old new).full_name =
      new.full_name.orElse (fun _ => old.full_name) ∧
    (mergeUser old new).bio = new.bio.orElse (fun _ => old.bio) ∧
    (mergeUser old new).followers =
      new.followers.orElse (fun _ => old.followers) ∧
    (mergeUser old new).following =
      new.following.orElse (fun _ => old.following) ∧
    (mergeUser old new).post_count =
      new.post_count.orElse (fun _ => old.post_count) ∧
    (mergeUser old new).profile_pic_url =
      new.profile_pic_url.orElse (fun _ => old.profile_pic_url) ∧
    (mergeUser old new).is_verified = new.is_verified ∧
    (mergeUser old new).is_private = old.is_private ∧
    (∀ (fn : String) (iv : Bool),
      (mergeUser old (minimalUserInput new.username fn iv)).followers =
          old.followers ∧
        (mergeUser old (minimalUserInput new.username fn iv)).following =
          old.following ∧
        (mergeUser old (minimalUserInput new.username fn iv)).bio =
          old.bio) := by
  refine ⟨upsert_user_conflict new old hname, rfl, rfl, rfl, rfl, rfl, rfl,
    rfl, rfl, fun fn iv => ⟨rfl, rfl, rfl⟩⟩

/-- C2 witness: the amended theorem applied to the enriched `"alice"` row
and a concrete minimal upsert. -/
theorem C2_user_merge_policy_witness :
    upsert_user (minimalUserInput "alice" "x" true)
        [rowOfUser enrichedAliceInput] =
      [mergeUser (rowOfUser enrichedAliceInput)
        (minimalUserInput "alice" "x" true)] ∧
    (mergeUser (rowOfUser enrichedAliceInput)
        (minimalUserInput "alice" "x" true)).followers =
      (rowOfUser enrichedAliceInput).followers :=
  ⟨(C2_user_merge_policy (rowOfUser enrichedAliceInput)
      (minimalUserInput "alice" "x" true) rfl).1,
   ((C2_user_merge_policy (rowOfUser enrichedAliceInput)
      (minimalUserInput "alice" "x" true) rfl).2.2.2.2.2.2.2.2.2 "x" true).1⟩

/-- C5: re-upserting a post with the code of a stored row overwrites exactly
the engagement counters (`likes`, `comments_count`, `views`) with the newer
record's values; every other column of the stored row is unchanged. -/
theorem C5_post_merge_policy (old : PostRow) (new : Post)
    (hcode : new.code = old.code) :
    upsert_post new [old] = [mergePost old new] ∧
    (mergePost old new).likes = new.likes ∧
    (mergePost old new).comments_count = new.comments_count ∧
    (mergePost old new).views = new.views ∧
    (mergePost old new).code = old.code ∧
    (mergePost old new).username = old.username ∧
    (mergePost old new).caption = old.caption ∧
    (mergePost old new).hashtags = old.hashtags ∧
    (mergePost old new).image_url = old.image_url ∧
    (mergePost old new).local_image_path = old.local_image_path ∧
    (mergePost old new).media_type = old.media_type ∧
    (mergePost old new).location_name = old.location_name ∧
    (mergePost old new).location_lat = old.location_lat ∧
    (mergePost old new).location_lng = old.location_lng ∧
    (mergePost old new).posted_at = old.posted_at ∧
    (mergePost old new).word_count = old.word_count := by
  refine ⟨upsert_post_conflict new old hcode, rfl, rfl, rfl, rfl, rfl, rfl,
    rfl, rfl, rfl, rfl, rfl, rfl, rfl, rfl, rfl⟩

/-- C5 witness: insert `samplePost`, then upsert an updated fetch of the
same code; the stored row is the first insert with only the counters
replaced. -/
theorem C5_post_merge_policy_witness :
    upsert_post samplePostUpdated (upsert_post samplePost []) =
      [mergePost (rowOfPost samplePost) samplePostUpdated] ∧
    (mergePost (rowOfPost samplePost) samplePostUpdated).caption =
      (rowOfPost samplePost).caption := by
  have h := C5_post_merge_policy (rowOfPost samplePost) samplePostUpdated rfl
  exact ⟨h.1, h.2.2.2.2.2.2.1⟩

/-- C9: the SQLite backend satisfies the count contract — from an empty
table, upserting `n` posts with pairwise-distinct codes yields
`get_post_count = n` — but the JSON backend does not return the same value
for the same upsert sequence: a single upsert into a fresh store yields
`json_get_post_count = 2` (the post is counted both in `_existing_codes`
and in the unflushed `_posts` buffer) where SQLite yields 1. -/
theorem C9_post_count_backends (ps : List Post)
    (hdist : ps.Pairwise (fun a b => a.code ≠ b.code)) :
    get_post_count (ps.foldl (fun t p => upsert_post p t) []) = ps.length ∧
    get_post_count (upsert_post samplePost []) = 1 ∧
    json_get_post_count (json_upsert_post samplePost JSONState.empty) = 2 := by
  refine ⟨?_, rfl, rfl⟩
  simpa [get_post_count] using
    sqlite_count_distinct ps [] (by simp) hdist

/-- C9 witness: two distinct-code posts stored in SQLite count as 2. -/
theorem C9_post_count_backends_witness :
    get_post_count
        ([samplePost, samplePost2].foldl (fun t p => upsert_post p t) []) =
      2 ∧
    json_get_post_count (json_upsert_post samplePost JSONState.empty) = 2 := by
  have h := C9_post_count_backends [samplePost, samplePost2]
    (by simp [samplePost, samplePost2])
  exact ⟨h.1, h.2.2⟩

namespace IgMiner

/-! ## Harvest Orchestrator (`src/ig_miner/scraper.py`, `scrape_hashtag`)

The network side of a run is an environment: `download` is
`download_image` (its `None` covers transport failure, non-200 and falsy
body, image bytes themselves being opaque), `profile` is
`fetch_user_profile` post-normalisation (a `UserInput` is exactly the
parameter tuple its dict produces at `upsert_user`).  The feed result is
passed in as the list `fetched` — for claim C1 "unchanged feed" means the
same list.  Python-set iteration order for the enrichment pass is modelled
by first-seen order. -/

structure ScrapeEnv where
  download : String → Option Nat
  profile : String → Option UserInput

/-- The whole SQLite backend state: the two tables and the `images/` files
written by `store_image`. -/
structure SQLiteState where
  posts : List PostRow
  users : List UserRow
  images : List (String × Nat)
  deriving Repr, DecidableEq

def upsertPostS (p : Post) (s : SQLiteState) : SQLiteState :=
  { s with posts := upsert_post p s.posts }

def upsertUserS (u : UserInput) (s : SQLiteState) : SQLiteState :=
  { s with users := upsert_user u s.users }

/-- `SQLiteStorage.store_image`: writes `images/<filename>` and returns its
path. -/
def store_image (imageBytes : Nat) (filename : String) (s : SQLiteState) :
    SQLiteState × Option String :=
  ({ s with images := s.images ++ [(filename, imageBytes)] },
   some ("images/" ++ filename))

/-- The image part of the per-post loop: `if download_images and
post.get("image_url"): img_bytes = download_image(...); if img_bytes:
url = storage.store_image(...); if url: post["storage_url"] = url;
post["local_image_path"] = url` (the `storage_url` key is not a stored
post column, so only `local_image_path` is carried). -/
def scrapeImagePhase (env : ScrapeEnv) (download_images : Bool)
    (st : SQLiteState) (post : Post) : SQLiteState × Post :=
  if download_images = true ∧ post.image_url ≠ "" then
    match env.download post.image_url with
    | some imageBytes =>
      let res := store_image imageBytes (post.code ++ ".jpg") st
      match res.2 with
      | some url => (res.1, { post with local_image_path := some url })
      | none => (res.1, post)
    | none => (st, post)
  else (st, post)

/-- The author part of the per-post loop: `if username:
storage.upsert_user({username, full_name, is_verified});
users_seen.add(username)`. -/
def scrapeUserPhase (st : SQLiteState) (usersSeen : List String)
    (post : Post) : SQLiteState × List String :=
  if post.username ≠ "" then
    (upsertUserS
      (minimalUserInput post.username post.full_name post.is_verified) st,
     if post.username ∈ usersSeen then usersSeen
     else usersSeen ++ [post.username])
  else (st, usersSeen)

/-- The body of the per-post loop of `scrape_hashtag`: optional image
download+store (attaching `local_image_path` on success), minimal author
upsert when the username is non-empty, then the post upsert.  The folded
state is (storage, `users_seen`, `stored`). -/
def scrapeStep (env : ScrapeEnv) (download_images : Bool)
    (acc : SQLiteState × List String × Nat) (post : Post) :
    SQLiteState × List String × Nat :=
  let withImage := scrapeImagePhase env download_images acc.1 post
  let afterUser := scrapeUserPhase withImage.1 acc.2.1 withImage.2
  (upsertPostS withImage.2 afterUser.1, afterUser.2, acc.2.2 + 1)

/-- The enrichment pass: for each author not already enriched, fetch the
profile and upsert it when found (`if profile: storage.upsert_user(...)`). -/
def enrichUsers (env : ScrapeEnv) (toEnrich : List String)
    (st : SQLiteState) : SQLiteState :=
  toEnrich.foldl
    (fun s u =>
      match env.profile u with
      | some prof => upsertUserS prof s
      | none => s)
    st

/-- The tail of `scrape_hashtag` after the per-post loop: the optional
enrichment pass over `users_seen - enriched`, and the return value
`stored`. -/
def postLoopFinish (env : ScrapeEnv) (enrich_users : Bool)
    (looped : SQLiteState × List String × Nat) : Nat × SQLiteState :=
  (looped.2.2,
   if enrich_users then
     enrichUsers env
       (looped.2.1.filter
         (fun u => !(u ∈ get_enriched_users looped.1.users)))
       looped.1
   else looped.1)

/-- The body of `scrape_hashtag` once the new-post partition is known:
`if not new_posts: return 0`, then the per-post loop, then the enrichment
pass. -/
def newPostsRun (env : ScrapeEnv) (new_posts : List Post)
    (download_images enrich_users : Bool) (st : SQLiteState) :
    Nat × SQLiteState :=
  if new_posts.isEmpty then (0, st)
  else
    postLoopFinish env enrich_users
      (new_posts.foldl (scrapeStep env download_images) (st, [], 0))

/-- `scrape_hashtag(hashtag, cookies, storage, max_pages, tab,
download_images, enrich_users)` with the feed's parsed posts passed in.
Snapshots the existing codes, partitions the fetch into new vs
already-known, then runs the loop.  Returns (number of new posts stored,
final storage state). -/
def scrape_hashtag (env : ScrapeEnv) (fetched : List Post)
    (download_images enrich_users : Bool) (st : SQLiteState) :
    Nat × SQLiteState :=
  newPostsRun env
    (fetched.filter (fun p => !(p.code ∈ get_existing_codes st.posts)))
    download_images enrich_users st

/-! Lemmas: the set of stored codes only grows, each stored post's code
ends up in it, and nothing after the post loop touches the posts table. -/

theorem codes_upsert_post (p : Post) (tbl : List PostRow) :
    (upsert_post p tbl).map PostRow.code =
      if tbl.any (fun r => r.code == p.code) then tbl.map PostRow.code
      else tbl.map PostRow.code ++ [p.code] := by
  by_cases h : tbl.any (fun r => r.code == p.code) = true
  · rw [if_pos h]
    unfold upsert_post
    rw [if_pos h, List.map_map]
    apply List.map_congr_left
    intro r _
    by_cases hr : r.code = p.code
    · simp [hr, mergePost]
    · simp [hr]
  · rw [if_neg h]
    unfold upsert_post
    rw [if_neg h]
    simp [rowOfPost]

theorem mem_codes_upsert_post_self (p : Post) (tbl : List PostRow) :
    p.code ∈ (upsert_post p tbl).map PostRow.code := by
  rw [codes_upsert_post]
  by_cases h : tbl.any (fun r => r.code == p.code) = true
  · rw [if_pos h]
    rw [List.any_eq_true] at h
    obtain ⟨r, hr, hbeq⟩ := h
    rw [beq_iff_eq] at hbeq
    exact hbeq ▸ List.mem_map_of_mem PostRow.code hr
  · rw [if_neg h]
    simp
  
theorem mem_codes_upsert_post_mono {c : String} (p : Post)
    (tbl : List PostRow) (h : c ∈ tbl.map PostRow.code) :
    c ∈ (upsert_post p tbl).map PostRow.code := by
  rw [codes_upsert_post]
  by_cases hb : tbl.any (fun r => r.code == p.code) = true
  · rwa [if_pos hb]
  · rw [if_neg hb]
    exact List.mem_append_left _ h

theorem scrapeImagePhase_code (env : ScrapeEnv) (di : Bool)
    (st : SQLiteState) (post : Post) :
    (scrapeImagePhase env di st post).2.code = post.code := by
  unfold scrapeImagePhase
  by_cases h : di = true ∧ post.image_url ≠ ""
  · rw [if_pos h]
    cases henv : env.download post.image_url <;> rfl
  · rw [if_neg h]

theorem scrapeImagePhase_posts (env : ScrapeEnv) (di : Bool)
    (st : SQLiteState) (post : Post) :
    (scrapeImagePhase env di st post).1.posts = st.posts := by
  unfold scrapeImagePhase
  by_cases h : di = true ∧ post.image_url ≠ ""
  · rw [if_pos h]
    cases henv : env.download post.image_url <;> rfl
  · rw [if_neg h]

theorem scrapeUserPhase_posts (st : SQLiteState) (usersSeen : List String)
    (post : Post) :
    (scrapeUserPhase st usersSeen post).1.posts = st.posts := by
  unfold scrapeUserPhase
  by_cases h : post.username ≠ ""
  · rw [if_pos h]
    rfl
  · rw [if_neg h]

theorem scrapeStep_posts (env : ScrapeEnv) (di : Bool)
    (acc : SQLiteState × List String × Nat) (post : Post) :
    ∃ p', p'.code = post.code ∧
      ((scrapeStep env di acc post).1).posts = upsert_post p' acc.1.posts := by
  refine ⟨(scrapeImagePhase env di acc.1 post).2,
    scrapeImagePhase_code env di acc.1 post, ?_⟩
  show (upsertPostS (scrapeImagePhase env di acc.1 post).2
      (scrapeUserPhase (scrapeImagePhase env di acc.1 post).1 acc.2.1
        (scrapeImagePhase env di acc.1 post).2).1).posts = _
  unfold upsertPostS
  rw [scrapeUserPhase_posts, scrapeImagePhase_posts]

theorem scrapeFold_codes (env : ScrapeEnv) (di : Bool) :
    ∀ (ps : List Post) (acc : SQLiteState × List String × Nat),
      (∀ c, c ∈ acc.1.posts.map PostRow.code →
        c ∈ (ps.foldl (scrapeStep env di) acc).1.posts.map PostRow.code) ∧
      (∀ p ∈ ps,
        p.code ∈ (ps.foldl (scrapeStep env di) acc).1.posts.map PostRow.code) := by
  intro ps
  induction ps with
  | nil =>
    intro acc
    exact ⟨fun c hc => hc, by simp⟩
  | cons q rest ih =>
    intro acc
    rw [List.foldl_cons]
    obtain ⟨q', hq'code, hq'posts⟩ := scrapeStep_posts env di acc q
    constructor
    · intro c hc
      apply (ih (scrapeStep env di acc q)).1
      rw [hq'posts]
      exact mem_codes_upsert_post_mono q' acc.1.posts hc
    · intro p hp
      rcases List.mem_cons.mp hp with heq | hp'
      · apply (ih (scrapeStep env di acc q)).1
        rw [hq'posts, heq, ← hq'code]
        exact mem_codes_upsert_post_self q' acc.1.posts
      · exact (ih (scrapeStep env di acc q)).2 p hp'

theorem enrichUsers_posts (env : ScrapeEnv) (toEnrich : List String) :
    ∀ st : SQLiteState, (enrichUsers env toEnrich st).posts = st.posts := by
  induction toEnrich with
  | nil => intro st; rfl
  | cons u rest ih =>
    intro st
    unfold enrichUsers
    rw [List.foldl_cons]
    cases env.profile u with
    | none => exact ih st
    | some prof => exact ih (upsertUserS prof st)

theorem postLoopFinish_posts (env : ScrapeEnv) (eu : Bool)
    (looped : SQLiteState × List String × Nat) :
    (postLoopFinish env eu looped).2.posts = looped.1.posts := by
  cases eu with
  | false => rfl
  | true =>
    show (enrichUsers env _ looped.1).posts = looped.1.posts
    exact enrichUsers_posts env _ looped.1

end IgMiner

/-- C1: dedup idempotence of `scrape_hashtag`.  After any run, every
fetched post's code is in the stored-code snapshot; hence a second run with
the unchanged feed partitions every post as already-known, discards them
all without a single upsert (storage is returned untouched) and returns 0
newly-stored posts. -/
theorem C1_dedup_idempotence (env : ScrapeEnv) (fetched : List Post)
    (di eu : Bool) (st : SQLiteState) :
    (∀ p ∈ fetched,
      p.code ∈
        get_existing_codes (scrape_hashtag env fetched di eu st).2.posts) ∧
    scrape_hashtag env fetched di eu
        ((scrape_hashtag env fetched di eu st).2) =
      (0, (scrape_hashtag env fetched di eu st).2) := by
  have hall : ∀ p ∈ fetched,
      p.code ∈
        get_existing_codes (scrape_hashtag env fetched di eu st).2.posts := by
    intro p hp
    unfold scrape_hashtag newPostsRun
    by_cases hempty :
        (fetched.filter
          (fun q => !(q.code ∈ get_existing_codes st.posts))).isEmpty = true
    · rw [if_pos hempty]
      rw [List.isEmpty_iff, List.filter_eq_nil_iff] at hempty
      have := hempty p hp
      simpa using this
    · rw [if_neg hempty]
      rw [show ∀ lo, get_existing_codes (postLoopFinish env eu lo).2.posts =
            get_existing_codes lo.1.posts
          from fun lo => congrArg (List.map PostRow.code) (postLoopFinish_posts env eu lo)]
      by_cases hmem : p.code ∈ get_existing_codes st.posts
      · exact (scrapeFold_codes env di _ (st, [], 0)).1 p.code hmem
      · refine (scrapeFold_codes env di _ (st, [], 0)).2 p ?_
        rw [List.mem_filter]
        exact ⟨hp, by simpa using hmem⟩
  refine ⟨hall, ?_⟩
  generalize hg : (scrape_hashtag env fetched di eu st).2 = st1
  rw [hg] at hall
  have hfil :
      (fetched.filter
        (fun q => !(q.code ∈ get_existing_codes st1.posts))) = [] := by
    rw [List.filter_eq_nil_iff]
    intro q hq
    simpa using hall q hq
  show scrape_hashtag env fetched di eu st1 = (0, st1)
  unfold scrape_hashtag
  rw [hfil]
  rfl

namespace IgMiner

/-! ## Daemon Controller (`src/igminer/daemon.py`, `run_daemon`)

One cycle of the `while running` loop, on the happy path (no stop signal,
no exception): the stored-post count is read at cycle start; crawling is
abstracted by an effect oracle `eff tag tab count` giving the stored-post
count after `scrape_hashtag(tag, …, tab=tab)` runs at count `count`
(comment back-fill stores no posts, so it leaves the count unchanged —
`upsert_comment` only writes the comments table).  The shuffled tag order
and the random phase-3 sample are inputs, standing for the `random.shuffle`
/ `random.sample` draws. -/

inductive DaemonEvent where
  /-- A `scrape_hashtag(tag, …, max_pages, tab, …, enrich_users)` call. -/
  | scrapeHashtag : String → String → Nat → Bool → DaemonEvent
  /-- A `scrape_comments_batch(…, limit)` call. -/
  | commentsBatch : Nat → DaemonEvent
  /-- `time.sleep(3600)` in the target-reached branch. -/
  | sleepHour : DaemonEvent
  /-- The 5–10 minute end-of-cycle pause. -/
  | cyclePause : DaemonEvent
  deriving Repr, DecidableEq

/-- Phase 1 — the top-tab pass: for each tag, re-read the count and break
once it reaches the target, otherwise `scrape_hashtag(tag, max_pages=20,
tab="top", enrich_users=False)`. -/
def crawlTopTab (eff : String → String → Nat → Nat) (target : Nat) :
    List String → Nat → List DaemonEvent × Nat
  | [], count => ([], count)
  | tag :: rest, count =>
    if target ≤ count then ([], count)
    else
      let next := crawlTopTab eff target rest (eff tag "top" count)
      (.scrapeHashtag tag "top" 20 false :: next.1, next.2)

/-- Phase 3 — the recent-tab pass over the random sample:
`scrape_hashtag(tag, max_pages=10, tab="recent", enrich_users=False)` for
each sampled tag, with no per-tag target check. -/
def crawlRecentTab (eff : String → String → Nat → Nat)
    (sample : List String) (count : Nat) : List DaemonEvent × Nat :=
  sample.foldl
    (fun acc tag =>
      (acc.1 ++ [.scrapeHashtag tag "recent" 10 false], eff tag "recent" acc.2))
    ([], count)

/-- One daemon cycle.  `count` is `storage.get_post_count()` read at cycle
start. -/
def run_cycle (eff : String → String → Nat → Nat)
    (shuffled sample : List String) (target count : Nat) :
    List DaemonEvent × Nat :=
  if target ≤ count then ([.commentsBatch 500, .sleepHour], count)
  else
    let ph1 := crawlTopTab eff target shuffled count
    let ph3 :=
      if ph1.2 < target then crawlRecentTab eff sample ph1.2
      else ([], ph1.2)
    let tailEv : List DaemonEvent :=
      if ph3.2 < target then [.cyclePause] else []
    (ph1.1 ++ [.commentsBatch 300] ++ ph3.1 ++ tailEv, ph3.2)

end IgMiner

/-- C7: (i) a cycle whose stored-post count already meets the target runs
only the comment back-fill and the one-hour sleep — it contains no
`scrape_hashtag` event; (ii) the top-tab crawl re-checks the target before
each tag and exits as soon as it is met; (iii) a top-tab fetch is issued
only at a count strictly below the target. -/
theorem C7_target_threshold_transition :
    (∀ (eff : String → String → Nat → Nat) (shuffled sample : List String)
       (target count : Nat), target ≤ count →
      run_cycle eff shuffled sample target count =
        ([.commentsBatch 500, .sleepHour], count) ∧
      ∀ e ∈ (run_cycle eff shuffled sample target count).1,
        ∀ (tag tab : String) (mp : Nat) (en : Bool),
          e ≠ .scrapeHashtag tag tab mp en) ∧
    (∀ (eff : String → String → Nat → Nat) (target : Nat)
       (tags : List String) (count : Nat), target ≤ count →
      crawlTopTab eff target tags count = ([], count)) ∧
    (∀ (eff : String → String → Nat → Nat) (target : Nat) (tag : String)
       (rest : List String) (count : Nat), count < target →
      crawlTopTab eff target (tag :: rest) count =
        (.scrapeHashtag tag "top" 20 false ::
            (crawlTopTab eff target rest (eff tag "top" count)).1,
          (crawlTopTab eff target rest (eff tag "top" count)).2)) := by
  refine ⟨?_, ?_, ?_⟩
  · intro eff shuffled sample target count h
    have heq : run_cycle eff shuffled sample target count =
        ([.commentsBatch 500, .sleepHour], count) := by
      unfold run_cycle
      rw [if_pos h]
    refine ⟨heq, ?_⟩
    rw [heq]
    intro e he tag tab mp en hcontra
    subst hcontra
    simp at he
  · intro eff target tags count h
    cases tags with
    | nil => rfl
    | cons tag rest =>
      unfold crawlTopTab
      rw [if_pos h]
  · intro eff target tag rest count h
    conv_lhs => rw [crawlTopTab]
    rw [if_neg (by omega)]

/-- C7 witness: a concrete target-reached cycle (count 150 ≥ target 100)
and concrete threshold checks in the top-tab crawler. -/
theorem C7_target_threshold_transition_witness :
    run_cycle (fun _ _ c => c + 24) ["beijing", "shanghai"] ["xian"]
        100 150 =
      ([.commentsBatch 500, .sleepHour], 150) ∧
    crawlTopTab (fun _ _ c => c + 24) 100 ["beijing", "shanghai"] 120 =
      ([], 120) :=
  ⟨(C7_target_threshold_transition.1 (fun _ _ c => c + 24)
      ["beijing", "shanghai"] ["xian"] 100 150 (by omega)).1,
   C7_target_threshold_transition.2.1 (fun _ _ c => c + 24) 100
     ["beijing", "shanghai"] 120 (by omega)⟩
